import Mathlib

/-
Shallow embedding of cmd/generator/main.go: a batch job that reconciles a
catalog of application artifacts against upstream sources.  Network traffic,
the current date and the SHA-256 primitive are external collaborators; they
are modelled as an explicit environment (`Env`) of response oracles that the
embedded functions consult, exactly where the Go code performs the
corresponding call.  Go maps are modelled as association lists with
overwrite-on-insert; int64 is modelled as Int (Go HTTP content lengths can be
negative: -1 means the length header was absent).
-/

namespace UpdaterRegistry

/-- Mirrors SourceApp (main.go lines 21-30): one tracked application as read
from the source descriptor file.  The config field is the open string-keyed
strategy parameter map. -/
structure SourceApp where
  id : String
  name : String
  description : String
  iconURL : String
  packageName : String
  installType : String
  strategy : String
  config : List (String × String)
  deriving DecidableEq, Repr

/-- Mirrors CatalogApp (main.go lines 32-46): the persisted entry for one
application. -/
structure CatalogApp where
  id : String
  name : String
  description : String
  iconURL : String
  packageName : String
  installType : String
  version : String
  downloadURL : String
  checksum : String
  size : Int
  deriving DecidableEq, Repr

/-- Mirrors the asset element of GithubRelease (main.go lines 56-60). -/
structure GithubAsset where
  name : String
  browserDownloadURL : String
  size : Int
  deriving DecidableEq, Repr

/-- Mirrors GithubRelease (main.go lines 54-61): the decoded JSON body of the
latest-release API response. -/
structure GithubRelease where
  tagName : String
  assets : List GithubAsset
  deriving DecidableEq, Repr

/-- Outcome of the GET against the GitHub API in checkGithub: a transport
error, or a status code with the decoded body (none when JSON decoding
fails). -/
inductive GhResp where
  | transportErr
  | resp (status : Nat) (body : Option GithubRelease)
  deriving DecidableEq, Repr

/-- Outcome of the HEAD request in checkDirectHead: a transport error, or a
status code together with the final URL after redirects and the value of
resp.ContentLength (-1 when the length header is absent, per net/http). -/
inductive HeadResp where
  | transportErr
  | resp (status : Nat) (finalURL : String) (contentLength : Int)
  deriving DecidableEq, Repr

/-- Outcome of the GET in downloadAndHash: a transport error, or a status code
with the streamed body bytes. -/
inductive DlResp where
  | transportErr
  | resp (status : Nat) (body : List Nat)
  deriving DecidableEq, Repr

/-- The external world of one run: the network oracles keyed by request URL,
the regexp library (compile returns none exactly when regexp.MustCompile
would panic, otherwise the FindStringSubmatch results), the formatted current
date used by the direct_static strategy, and the hex-encoded SHA-256 of a
byte stream. -/
structure Env where
  github : String → GhResp
  head : String → HeadResp
  dl : String → DlResp
  regex : String → Option (String → List String)
  today : String
  hashHex : List Nat → String

/-- Result of checkStrategy: Go (version, url, size, err) return values, plus
a panic case for regexp.MustCompile on an invalid pattern. -/
inductive StratResult where
  | panic
  | err (msg : String)
  | ok (version : String) (url : String) (size : Int)
  deriving DecidableEq, Repr

/-- Result of downloadAndHash: Go (checksum, size, err) return values. -/
inductive DlResult where
  | err (msg : String)
  | ok (checksum : String) (size : Int)
  deriving DecidableEq, Repr

/-- Go map read with zero-value default: src.Config[key] yields the empty
string when the key is absent. -/
def getCfg (cfg : List (String × String)) (k : String) : String :=
  match cfg.lookup k with
  | some v => v
  | none => ""

/-- The character list sub occurs contiguously inside the second list:
checked position by position. -/
def charListContains (sub : List Char) : List Char → Bool
  | [] => sub.isEmpty
  | c :: t => sub.isPrefixOf (c :: t) || charListContains sub t

/-- Go strings.Contains: sub occurs as a contiguous substring of s (modelled
on characters; all the strings the program compares are ASCII). -/
def strContains (s sub : String) : Bool :=
  charListContains sub.data s.data

/-- Go strings.ToLower on ASCII letters, character by character. -/
def strToLower (s : String) : String :=
  ⟨s.data.map Char.toLower⟩

/-- Go strings.TrimPrefix with the prefix-string v: drop one leading v when
present (main.go line 202). -/
def trimV (s : String) : String :=
  match s.data with
  | 'v' :: rest => ⟨rest⟩
  | _ => s

/-- URL construction of main.go line 182. -/
def githubURL (repo : String) : String :=
  "https://api.github.com/repos/" ++ repo ++ "/releases/latest"

/-- Mirrors checkGithub (main.go lines 181-211).  The Authorization header of
lines 186-188 does not change the modelled response and is elided. -/
def checkGithub (env : Env) (repo assetFilter : String) : StratResult :=
  match env.github (githubURL repo) with
  | .transportErr => .err "transport"
  | .resp status body =>
    if status ≠ 200 then .err ("github status: " ++ toString status)
    else
      match body with
      | none => .err "decode"
      | some rel =>
        match rel.assets.find? (fun a => strContains (strToLower a.name) assetFilter) with
        | some a => .ok (trimV rel.tagName) a.browserDownloadURL a.size
        | none => .err ("asset nao encontrado na release: " ++ assetFilter)

/-- Mirrors checkDirectHead (main.go lines 214-241).  regexp.MustCompile is
the panic case; a compiled pattern returns the FindStringSubmatch list, whose
length is checked against 2 exactly as on line 236. -/
def checkDirectHead (env : Env) (startURL versionRegex : String) : StratResult :=
  match env.head startURL with
  | .transportErr => .err "transport"
  | .resp status finalURL contentLength =>
    if status ≠ 200 then .err ("status invalido: " ++ toString status)
    else
      match env.regex versionRegex with
      | none => .panic
      | some re =>
        let ms := re finalURL
        if ms.length < 2 then .err ("regex falhou na url: " ++ finalURL)
        else .ok (ms.getD 1 "") finalURL contentLength

/-- Mirrors checkStrategy (main.go lines 165-178): dispatch on the strategy
name; direct_static synthesizes todays date as version, the configured URL
and declared size 0, with no network call. -/
def checkStrategy (env : Env) (src : SourceApp) : StratResult :=
  match src.strategy with
  | "github_release" => checkGithub env (getCfg src.config "repo") (getCfg src.config "asset_filter")
  | "direct_url_head" => checkDirectHead env (getCfg src.config "url") (getCfg src.config "regex")
  | "direct_static" => .ok env.today (getCfg src.config "url") 0
  | other => .err ("estrategia desconhecida: " ++ other)

/-- Mirrors downloadAndHash (main.go lines 248-267): GET the URL, stream the
body through the digest; io.Copy returns the byte count, which is the length
of the streamed body. -/
def downloadAndHash (env : Env) (url : String) : DlResult :=
  match env.dl url with
  | .transportErr => .err "transport"
  | .resp status body =>
    if status ≠ 200 then .err ("http status " ++ toString status)
    else .ok (env.hashHex body) (body.length : Int)

/-- The catalog Apps map: association list with overwrite-on-insert, the
model of the Go map[string]CatalogApp. -/
abbrev AppMap := List (String × CatalogApp)

/-- Go map read: the entry under a key, none when absent. -/
def lookupApp : AppMap → String → Option CatalogApp
  | [], _ => none
  | (k2, v) :: rest, k => if k2 = k then some v else lookupApp rest k

/-- Go map write: overwrite the existing binding or append a fresh one. -/
def insertApp : AppMap → String → CatalogApp → AppMap
  | [], k, v => [(k, v)]
  | (k2, v2) :: rest, k, v =>
    if k2 = k then (k, v) :: rest else (k2, v2) :: insertApp rest k v

/-- The new entry assembled in the genuine-update path (main.go lines
134-145): metadata from the current source descriptor, dynamic fields from
this resolution and download. -/
def buildApp (src : SourceApp) (onlineVer onlineURL checksum : String)
    (finalSize : Int) : CatalogApp :=
  { id := src.id
    name := src.name
    description := src.description
    iconURL := src.iconURL
    packageName := src.packageName
    installType := src.installType
    version := onlineVer
    downloadURL := onlineURL
    checksum := checksum
    size := finalSize }

/-- Mutable state of the reconciliation loop: the new catalog map under
construction and changesCount. -/
structure LoopState where
  newApps : AppMap
  changesCount : Nat
  deriving DecidableEq, Repr

/-- Outcome of one loop iteration: continue with the next application, or the
whole process aborts on a panic. -/
inductive StepOut where
  | panic
  | cont (s : LoopState)
  deriving DecidableEq, Repr

/-- Body of the per-application loop (main.go lines 82-150): resolve the
strategy, decide skip / update / keep-old-on-error, and record the entry.
forceCheck of line 98 is inlined as the strategy test; the skip of line 102,
the carry-forward of lines 90-92 and 115, the hash-skip of line 120 and the
size fallback of lines 128-131 each appear in source order. -/
def processApp (env : Env) (oldApps : AppMap) (s : LoopState) (src : SourceApp) : StepOut :=
  match checkStrategy env src with
  | .panic => .panic
  | .err _ =>
    match lookupApp oldApps src.id with
    | some old => .cont ⟨insertApp s.newApps src.id old, s.changesCount⟩
    | none => .cont s
  | .ok onlineVer onlineURL onlineSize =>
    match lookupApp oldApps src.id with
    | some oldApp =>
      if src.strategy ≠ "direct_static" ∧ oldApp.version = onlineVer then
        .cont ⟨insertApp s.newApps src.id oldApp, s.changesCount⟩
      else
        match downloadAndHash env onlineURL with
        | .err _ => .cont ⟨insertApp s.newApps src.id oldApp, s.changesCount⟩
        | .ok checksum downloadedSize =>
          if src.strategy = "direct_static" ∧ oldApp.checksum = checksum then
            .cont ⟨insertApp s.newApps src.id oldApp, s.changesCount⟩
          else
            .cont ⟨insertApp s.newApps src.id
                (buildApp src onlineVer onlineURL checksum
                  (if onlineSize = 0 then downloadedSize else onlineSize)),
              s.changesCount + 1⟩
    | none =>
      match downloadAndHash env onlineURL with
      | .err _ => .cont s
      | .ok checksum downloadedSize =>
        .cont ⟨insertApp s.newApps src.id
            (buildApp src onlineVer onlineURL checksum
              (if onlineSize = 0 then downloadedSize else onlineSize)),
          s.changesCount + 1⟩

/-- The loop of main.go lines 82-150 over the whole source list; none when an
iteration panics, aborting the process. -/
def runLoop (env : Env) (oldApps : AppMap) : List SourceApp → LoopState → Option LoopState
  | [], s => some s
  | src :: rest, s =>
    match processApp env oldApps s src with
    | .panic => none
    | .cont s2 => runLoop env oldApps rest s2

/-- Result of a whole run: the built catalog map, the change count, and
whether saveCatalog was invoked (main.go lines 152-158). -/
structure RunOutcome where
  newApps : AppMap
  changesCount : Nat
  saved : Bool
  deriving DecidableEq, Repr

/-- Mirrors main (main.go lines 67-159) after the source list and old catalog
are loaded: run the loop from an empty new catalog and zero changes, then
save exactly when changesCount is positive or the old catalog had no
entries. -/
def runMain (env : Env) (sources : List SourceApp) (oldApps : AppMap) : Option RunOutcome :=
  match runLoop env oldApps sources ⟨[], 0⟩ with
  | none => none
  | some s =>
    some ⟨s.newApps, s.changesCount,
      decide (0 < s.changesCount) || decide (oldApps.length = 0)⟩

/-- The on-disk catalog map after a completed run, given that the file held
oldApps when the run started: the new map when saveCatalog ran, otherwise the
untouched previous file. -/
def persistedApps (oldApps : AppMap) (out : RunOutcome) : AppMap :=
  if out.saved then out.newApps else oldApps

theorem lookupApp_insertApp_self (m : AppMap) (k : String) (v : CatalogApp) :
    lookupApp (insertApp m k v) k = some v := by
  induction m with
  | nil => simp [insertApp, lookupApp]
  | cons hd tl ih =>
    obtain ⟨k2, v2⟩ := hd
    by_cases h : k2 = k <;> simp [insertApp, lookupApp, h, ih]

theorem lookupApp_insertApp_ne (m : AppMap) (k k2 : String) (v : CatalogApp)
    (h : k ≠ k2) : lookupApp (insertApp m k v) k2 = lookupApp m k2 := by
  induction m with
  | nil => simp [insertApp, lookupApp, h]
  | cons hd tl ih =>
    obtain ⟨k3, v3⟩ := hd
    by_cases h3 : k3 = k
    · subst h3
      simp [insertApp, lookupApp, h]
    · simp [insertApp, lookupApp, h3, ih]

/-- checkStrategy never consults the download oracle or the digest: replacing
both leaves every resolution unchanged. -/
theorem checkStrategy_update_dl (env : Env) (d : String → DlResp)
    (hh : List Nat → String) (src : SourceApp) :
    checkStrategy { env with dl := d, hashHex := hh } src = checkStrategy env src := rfl

/-- C1: for a tracked application whose strategy is not direct_static, when a
prior catalog entry exists and its version equals the freshly resolved
version, the loop body records the prior entry in the new catalog unchanged
(every field identical) without counting a change, and this outcome is
identical for every download oracle and digest function, so no download is
performed. -/
theorem C1_version_unchanged_skip (env : Env) (oldApps : AppMap) (s : LoopState)
    (src : SourceApp) (oldApp : CatalogApp) (v u : String) (sz : Int)
    (hstrat : src.strategy ≠ "direct_static")
    (hres : checkStrategy env src = .ok v u sz)
    (hold : lookupApp oldApps src.id = some oldApp)
    (hver : oldApp.version = v) :
    ∀ (d : String → DlResp) (hh : List Nat → String),
      processApp { env with dl := d, hashHex := hh } oldApps s src =
        .cont ⟨insertApp s.newApps src.id oldApp, s.changesCount⟩ := by
  intro d hh
  simp [processApp, checkStrategy_update_dl, hres, hold, hstrat, hver]

def c1Env : Env :=
  { github := fun _ => .resp 200 (some ⟨"v1.0", [⟨"tool-linux.bin", "http://gh/tool", 100⟩]⟩)
    head := fun _ => .transportErr
    dl := fun _ => .transportErr
    regex := fun _ => none
    today := "2026.10.11"
    hashHex := fun _ => "" }

def c1Src : SourceApp :=
  ⟨"a", "Tool", "desc", "icon", "pkg", "deb", "github_release",
    [("repo", "o/r"), ("asset_filter", "linux")]⟩

def c1Old : CatalogApp :=
  ⟨"a", "Tool", "desc", "icon", "pkg", "deb", "1.0", "http://gh/tool", "abc", 100⟩

theorem C1_witness :
    c1Src.strategy ≠ "direct_static" ∧
    checkStrategy c1Env c1Src = .ok "1.0" "http://gh/tool" 100 ∧
    lookupApp [("a", c1Old)] c1Src.id = some c1Old ∧
    c1Old.version = "1.0" ∧
    processApp { c1Env with dl := fun _ => .transportErr, hashHex := fun _ => "" }
      [("a", c1Old)] ⟨[], 0⟩ c1Src = .cont ⟨insertApp [] c1Src.id c1Old, 0⟩ :=
  ⟨by decide, by decide, by decide, by decide,
    C1_version_unchanged_skip c1Env [("a", c1Old)] ⟨[], 0⟩ c1Src c1Old
      "1.0" "http://gh/tool" 100 (by decide) (by decide) (by decide) (by decide)
      (fun _ => .transportErr) (fun _ => "")⟩

/-- C2: when strategy resolution fails, or resolution succeeds but the
download of the resolved URL fails, the iteration continues with the next
application and the change count untouched; the new catalog maps the
application to the prior entry exactly when one exists, is unchanged at that
key otherwise, and no other key is touched, so no partially populated entry
is ever produced. -/
theorem C2_failure_carries_forward (env : Env) (oldApps : AppMap) (s : LoopState)
    (src : SourceApp)
    (hfail : (∃ m, checkStrategy env src = .err m) ∨
      (∃ v u sz m, checkStrategy env src = .ok v u sz ∧
        downloadAndHash env u = .err m)) :
    processApp env oldApps s src ≠ .panic ∧
    ∀ s2, processApp env oldApps s src = .cont s2 →
      (∀ rest, runLoop env oldApps (src :: rest) s = runLoop env oldApps rest s2) ∧
      s2.changesCount = s.changesCount ∧
      (∀ old, lookupApp oldApps src.id = some old →
        lookupApp s2.newApps src.id = some old) ∧
      (lookupApp oldApps src.id = none →
        lookupApp s2.newApps src.id = lookupApp s.newApps src.id) ∧
      (∀ k, k ≠ src.id → lookupApp s2.newApps k = lookupApp s.newApps k) := by
  cases hold : lookupApp oldApps src.id with
  | some old =>
    have hcont : processApp env oldApps s src =
        .cont ⟨insertApp s.newApps src.id old, s.changesCount⟩ := by
      rcases hfail with ⟨m, hm⟩ | ⟨v, u, sz, m, hok, hdl⟩
      · simp [processApp, hm, hold]
      · by_cases hc : src.strategy ≠ "direct_static" ∧ old.version = v
        · simp [processApp, hok, hold, hc]
        · simp [processApp, hok, hold, hc, hdl]
    refine ⟨by rw [hcont]; simp, ?_⟩
    intro s2 h2
    rw [hcont] at h2
    cases h2
    refine ⟨?_, rfl, ?_, ?_, ?_⟩
    · intro rest
      simp [runLoop, hcont]
    · intro o ho
      cases ho
      exact lookupApp_insertApp_self ..
    · intro hnone
      cases hnone
    · intro k hk
      exact lookupApp_insertApp_ne _ _ _ _ (Ne.symm hk)
  | none =>
    have hcont : processApp env oldApps s src = .cont s := by
      rcases hfail with ⟨m, hm⟩ | ⟨v, u, sz, m, hok, hdl⟩
      · simp [processApp, hm, hold]
      · simp [processApp, hok, hold, hdl]
    refine ⟨by rw [hcont]; simp, ?_⟩
    intro s2 h2
    rw [hcont] at h2
    cases h2
    refine ⟨?_, rfl, ?_, fun _ => rfl, fun _ _ => rfl⟩
    · intro rest
      simp [runLoop, hcont]
    · intro o ho
      cases ho

def c2Env : Env :=
  { github := fun _ => .resp 404 none
    head := fun _ => .transportErr
    dl := fun _ => .transportErr
    regex := fun _ => none
    today := "2026.10.11"
    hashHex := fun _ => "" }

theorem C2_witness :
    checkStrategy c2Env c1Src = .err "github status: 404" ∧
    processApp c2Env [("a", c1Old)] ⟨[], 0⟩ c1Src ≠ .panic ∧
    runLoop c2Env [("a", c1Old)] [c1Src] ⟨[], 0⟩ =
      runLoop c2Env [("a", c1Old)] [] ⟨[("a", c1Old)], 0⟩ ∧
    lookupApp (⟨[("a", c1Old)], 0⟩ : LoopState).newApps c1Src.id = some c1Old :=
  have H := C2_failure_carries_forward c2Env [("a", c1Old)] ⟨[], 0⟩ c1Src
    (Or.inl ⟨"github status: 404", by decide⟩)
  ⟨by decide, H.1,
    (H.2 ⟨[("a", c1Old)], 0⟩ (by decide)).1 [],
    (H.2 ⟨[("a", c1Old)], 0⟩ (by decide)).2.2.1 c1Old (by decide)⟩

/-- Distilled per-application step: given the prior entry stored under the
application id, the entry this iteration records (none = the application
stays absent) and the growth of changesCount; none models the panic abort.
processApp is exactly this step applied at the looked-up prior entry
(processApp_eq_appStep below). -/
def appStep (env : Env) (prior : Option CatalogApp) (src : SourceApp) :
    Option (Option CatalogApp × Nat) :=
  match checkStrategy env src with
  | .panic => none
  | .err _ => some (prior, 0)
  | .ok v u sz =>
    match prior with
    | some oldApp =>
      if src.strategy ≠ "direct_static" ∧ oldApp.version = v then some (some oldApp, 0)
      else
        match downloadAndHash env u with
        | .err _ => some (some oldApp, 0)
        | .ok c d =>
          if src.strategy = "direct_static" ∧ oldApp.checksum = c then some (some oldApp, 0)
          else some (some (buildApp src v u c (if sz = 0 then d else sz)), 1)
    | none =>
      match downloadAndHash env u with
      | .err _ => some (none, 0)
      | .ok c d => some (some (buildApp src v u c (if sz = 0 then d else sz)), 1)

theorem processApp_eq_appStep (env : Env) (oldApps : AppMap) (s : LoopState)
    (src : SourceApp) :
    processApp env oldApps s src =
      match appStep env (lookupApp oldApps src.id) src with
      | none => .panic
      | some (some e, d) => .cont ⟨insertApp s.newApps src.id e, s.changesCount + d⟩
      | some (none, _) => .cont s := by
  cases hres : checkStrategy env src with
  | panic => simp [processApp, appStep, hres]
  | err m => cases hold : lookupApp oldApps src.id <;> simp [processApp, appStep, hres, hold]
  | ok v u sz =>
    cases hold : lookupApp oldApps src.id with
    | none =>
      cases hdl : downloadAndHash env u <;> simp [processApp, appStep, hres, hold, hdl]
    | some oldApp =>
      by_cases hskip : src.strategy ≠ "direct_static" ∧ oldApp.version = v
      · simp [processApp, appStep, hres, hold, hskip]
      · cases hdl : downloadAndHash env u with
        | err m => simp [processApp, appStep, hres, hold, hskip, hdl]
        | ok c d =>
          by_cases hfs : src.strategy = "direct_static" ∧ oldApp.checksum = c
          · simp [processApp, appStep, hres, hold, hskip, hdl, hfs]
          · simp [processApp, appStep, hres, hold, hskip, hdl, hfs]

/-- Applying the step a second time, with its own result as the prior entry,
reproduces that result and counts no change: each skip, carry-forward and
update branch is stable. -/
theorem appStep_idem (env : Env) (prior : Option CatalogApp) (src : SourceApp)
    (r : Option CatalogApp) (d : Nat)
    (h : appStep env prior src = some (r, d)) :
    appStep env r src = some (r, 0) := by
  cases hres : checkStrategy env src with
  | panic => simp [appStep, hres] at h
  | err m =>
    simp [appStep, hres] at h ⊢
  | ok v u sz =>
    cases prior with
    | some oldApp =>
      by_cases hskip : src.strategy ≠ "direct_static" ∧ oldApp.version = v
      · simp only [appStep, hres, if_pos hskip] at h
        obtain ⟨rfl, rfl⟩ : some oldApp = r ∧ 0 = d := by
          simpa using h
        simp [appStep, hres, hskip]
      · cases hdl : downloadAndHash env u with
        | err m =>
          simp only [appStep, hres, if_neg hskip, hdl] at h
          obtain ⟨rfl, rfl⟩ : some oldApp = r ∧ 0 = d := by
            simpa using h
          simp [appStep, hres, hskip, hdl]
        | ok c dl =>
          by_cases hfs : src.strategy = "direct_static" ∧ oldApp.checksum = c
          · simp only [appStep, hres, if_neg hskip, hdl, if_pos hfs] at h
            obtain ⟨rfl, rfl⟩ : some oldApp = r ∧ 0 = d := by
              simpa using h
            simp [appStep, hres, hskip, hdl, hfs]
          · simp only [appStep, hres, if_neg hskip, hdl, if_neg hfs] at h
            obtain ⟨rfl, rfl⟩ :
                some (buildApp src v u c (if sz = 0 then dl else sz)) = r ∧ 1 = d := by
              simpa using h
            by_cases hstatic : src.strategy = "direct_static"
            · simp [appStep, hres, hstatic, hdl, buildApp]
            · simp [appStep, hres, hstatic, hdl, buildApp]
    | none =>
      cases hdl : downloadAndHash env u with
      | err m =>
        simp only [appStep, hres, hdl] at h
        obtain ⟨rfl, rfl⟩ : (none : Option CatalogApp) = r ∧ 0 = d := by
          simpa using h
        simp [appStep, hres, hdl]
      | ok c dl =>
        simp only [appStep, hres, hdl] at h
        obtain ⟨rfl, rfl⟩ :
            some (buildApp src v u c (if sz = 0 then dl else sz)) = r ∧ 1 = d := by
          simpa using h
        by_cases hstatic : src.strategy = "direct_static"
        · simp [appStep, hres, hstatic, hdl, buildApp]
        · simp [appStep, hres, hstatic, hdl, buildApp]

/-- Loop over appStep with explicit map and counter accumulators, used to
analyse whole runs. -/
def foldSteps (env : Env) (prior : AppMap) :
    List SourceApp → AppMap → Nat → Option (AppMap × Nat)
  | [], m, c => some (m, c)
  | src :: rest, m, c =>
    match appStep env (lookupApp prior src.id) src with
    | none => none
    | some (some e, d) => foldSteps env prior rest (insertApp m src.id e) (c + d)
    | some (none, _) => foldSteps env prior rest m c

theorem runLoop_eq_foldSteps (env : Env) (prior : AppMap) :
    ∀ (srcs : List SourceApp) (s : LoopState),
      runLoop env prior srcs s =
        (foldSteps env prior srcs s.newApps s.changesCount).map fun p => ⟨p.1, p.2⟩ := by
  intro srcs
  induction srcs with
  | nil => intro s; rfl
  | cons src rest ih =>
    intro s
    rw [runLoop, processApp_eq_appStep]
    cases hstep : appStep env (lookupApp prior src.id) src with
    | none => simp [foldSteps, hstep]
    | some p =>
      obtain ⟨e, d⟩ := p
      cases e with
      | some e0 => simp [foldSteps, hstep, ih]
      | none => simp [foldSteps, hstep, ih]

/-- Keys no processed application writes to keep their accumulator value. -/
theorem foldSteps_frame (env : Env) (prior : AppMap) :
    ∀ (srcs : List SourceApp) (m : AppMap) (c : Nat) (m1 : AppMap) (c1 : Nat),
      foldSteps env prior srcs m c = some (m1, c1) →
      ∀ k, (∀ src ∈ srcs, src.id ≠ k) → lookupApp m1 k = lookupApp m k := by
  intro srcs
  induction srcs with
  | nil =>
    intro m c m1 c1 h k hk
    simp [foldSteps] at h
    rw [h.1]
  | cons src rest ih =>
    intro m c m1 c1 h k hk
    simp only [foldSteps] at h
    cases hstep : appStep env (lookupApp prior src.id) src with
    | none => rw [hstep] at h; cases h
    | some p =>
      obtain ⟨e, d⟩ := p
      rw [hstep] at h
      cases e with
      | some e0 =>
        have := ih _ _ _ _ h k (fun s2 hs2 => hk s2 (List.mem_cons_of_mem _ hs2))
        rw [this, lookupApp_insertApp_ne _ _ _ _ (hk src (List.mem_cons_self _ _))]
      | none =>
        exact ih _ _ _ _ h k (fun s2 hs2 => hk s2 (List.mem_cons_of_mem _ hs2))

/-- With pairwise distinct application ids, the final map holds, for every
processed application, exactly the entry its own step produced (or keeps the
starting value when the step left the application absent). -/
theorem foldSteps_lookup (env : Env) (prior : AppMap) :
    ∀ (srcs : List SourceApp), (srcs.map SourceApp.id).Nodup →
      ∀ (m : AppMap) (c : Nat) (m1 : AppMap) (c1 : Nat),
        foldSteps env prior srcs m c = some (m1, c1) →
        ∀ src ∈ srcs,
          match appStep env (lookupApp prior src.id) src with
          | some (some e, _) => lookupApp m1 src.id = some e
          | some (none, _) => lookupApp m1 src.id = lookupApp m src.id
          | none => False := by
  intro srcs
  induction srcs with
  | nil => intro _ m c m1 c1 _ src hmem; cases hmem
  | cons src0 rest ih =>
    intro hnd m c m1 c1 h src hmem
    have hnd2 : (∀ x ∈ rest, ¬x.id = src0.id) ∧ (rest.map SourceApp.id).Nodup := by
      simpa using hnd
    have hndrest : (rest.map SourceApp.id).Nodup := hnd2.2
    simp only [foldSteps] at h
    rcases List.mem_cons.mp hmem with rfl | hmemrest
    · cases hstep : appStep env (lookupApp prior src.id) src with
      | none => rw [hstep] at h; cases h
      | some p =>
        obtain ⟨e, d⟩ := p
        rw [hstep] at h
        have hne : ∀ s2 ∈ rest, s2.id ≠ src.id := fun s2 hs2 => hnd2.1 s2 hs2
        cases e with
        | some e0 =>
          simp only
          rw [foldSteps_frame env prior rest _ _ _ _ h src.id hne,
            lookupApp_insertApp_self]
        | none =>
          simp only
          exact foldSteps_frame env prior rest _ _ _ _ h src.id hne
    · cases hstep : appStep env (lookupApp prior src0.id) src0 with
      | none => rw [hstep] at h; cases h
      | some p =>
        obtain ⟨e, d⟩ := p
        rw [hstep] at h
        have hne0 : src0.id ≠ src.id := fun heq => hnd2.1 src hmemrest heq.symm
        cases e with
        | some e0 =>
          have := ih hndrest _ _ _ _ h src hmemrest
          cases hstep2 : appStep env (lookupApp prior src.id) src with
          | none => rw [hstep2] at this; exact this
          | some p2 =>
            obtain ⟨e2, d2⟩ := p2
            rw [hstep2] at this
            cases e2 with
            | some e3 => exact this
            | none =>
              simp only at this ⊢
              rw [this, lookupApp_insertApp_ne _ _ _ _ hne0]
        | none =>
          exact ih hndrest _ _ _ _ h src hmemrest

/-- When every application step over prior map Q reproduces the entry its
step over prior map P produced while counting no change, the two folds build
the same map and the Q fold keeps its starting counter. -/
theorem foldSteps_congr (env : Env) (P Q : AppMap) :
    ∀ (srcs : List SourceApp),
      (∀ src ∈ srcs, ∃ r d, appStep env (lookupApp P src.id) src = some (r, d) ∧
        appStep env (lookupApp Q src.id) src = some (r, 0)) →
      ∀ (m : AppMap) (c cQ : Nat) (m1 : AppMap) (c1 : Nat),
        foldSteps env P srcs m c = some (m1, c1) →
        foldSteps env Q srcs m cQ = some (m1, cQ) := by
  intro srcs
  induction srcs with
  | nil =>
    intro _ m c cQ m1 c1 h
    simp [foldSteps] at h ⊢
    exact h.1
  | cons src rest ih =>
    intro hyp m c cQ m1 c1 h
    obtain ⟨r, d, hP, hQ⟩ := hyp src (List.mem_cons_self _ _)
    simp only [foldSteps] at h ⊢
    rw [hP] at h
    rw [hQ]
    have hyprest := fun s2 hs2 => hyp s2 (List.mem_cons_of_mem _ hs2)
    cases r with
    | some e =>
      simpa using ih hyprest _ _ _ _ _ h
    | none =>
      exact ih hyprest _ _ _ _ _ h

theorem checkStrategy_static (env : Env) (src : SourceApp)
    (h : src.strategy = "direct_static") :
    checkStrategy env src = .ok env.today (getCfg src.config "url") 0 := by
  unfold checkStrategy
  rw [h]
  rfl

theorem checkStrategy_github (env : Env) (src : SourceApp)
    (h : src.strategy = "github_release") :
    checkStrategy env src =
      checkGithub env (getCfg src.config "repo") (getCfg src.config "asset_filter") := by
  unfold checkStrategy
  rw [h]
  rfl

theorem checkStrategy_head (env : Env) (src : SourceApp)
    (h : src.strategy = "direct_url_head") :
    checkStrategy env src =
      checkDirectHead env (getCfg src.config "url") (getCfg src.config "regex") := by
  unfold checkStrategy
  rw [h]
  rfl

/-- C3: for strategy direct_static, when a prior entry exists and the freshly
downloaded checksum equals the prior checksum, the prior entry is carried
forward unchanged with no change counted, so the stored version remains the
prior (older) synthetic date and is not bumped to todays date. -/
theorem C3_static_checksum_unchanged (env : Env) (oldApps : AppMap) (s : LoopState)
    (src : SourceApp) (oldApp : CatalogApp) (c : String) (dsz : Int)
    (hstrat : src.strategy = "direct_static")
    (hold : lookupApp oldApps src.id = some oldApp)
    (hdl : downloadAndHash env (getCfg src.config "url") = .ok c dsz)
    (hsum : oldApp.checksum = c) :
    processApp env oldApps s src =
      .cont ⟨insertApp s.newApps src.id oldApp, s.changesCount⟩ ∧
    (lookupApp (insertApp s.newApps src.id oldApp) src.id).map CatalogApp.version =
      some oldApp.version := by
  constructor
  · simp [processApp, checkStrategy_static env src hstrat, hold, hdl, hstrat, hsum]
  · rw [lookupApp_insertApp_self]
    rfl

def c3Env : Env :=
  { github := fun _ => .transportErr
    head := fun _ => .transportErr
    dl := fun _ => .resp 200 [7, 7]
    regex := fun _ => none
    today := "2026.10.11"
    hashHex := fun b => "h" ++ toString b.length }

def c3Src : SourceApp :=
  ⟨"s", "Chrome", "d", "i", "p", "deb", "direct_static", [("url", "http://s/x")]⟩

def c3Old : CatalogApp :=
  ⟨"s", "Chrome", "d", "i", "p", "deb", "2025.01.01", "http://s/x", "h2", 2⟩

theorem C3_witness :
    c3Src.strategy = "direct_static" ∧
    lookupApp [("s", c3Old)] c3Src.id = some c3Old ∧
    downloadAndHash c3Env (getCfg c3Src.config "url") = .ok "h2" 2 ∧
    c3Old.checksum = "h2" ∧
    processApp c3Env [("s", c3Old)] ⟨[], 0⟩ c3Src =
      .cont ⟨insertApp [] c3Src.id c3Old, 0⟩ ∧
    (lookupApp (insertApp [] c3Src.id c3Old) c3Src.id).map CatalogApp.version =
      some c3Old.version :=
  have H := C3_static_checksum_unchanged c3Env [("s", c3Old)] ⟨[], 0⟩ c3Src c3Old
    "h2" 2 rfl (by decide) (by decide) rfl
  ⟨rfl, by decide, by decide, rfl, H.1, H.2⟩

/-- Every successful step either records exactly the prior entry with no
change counted, or counts one change and records the freshly assembled entry
of the update path. -/
theorem appStep_cases (env : Env) (prior : Option CatalogApp) (src : SourceApp)
    (r : Option CatalogApp) (d : Nat)
    (h : appStep env prior src = some (r, d)) :
    (d = 0 ∧ r = prior) ∨
    (d = 1 ∧ ∃ v u sz c dl, checkStrategy env src = .ok v u sz ∧
      downloadAndHash env u = .ok c dl ∧
      r = some (buildApp src v u c (if sz = 0 then dl else sz))) := by
  cases hres : checkStrategy env src with
  | panic => simp [appStep, hres] at h
  | err m =>
    simp [appStep, hres] at h
    exact Or.inl ⟨h.2.symm, h.1.symm⟩
  | ok v u sz =>
    cases prior with
    | some oldApp =>
      by_cases hskip : src.strategy ≠ "direct_static" ∧ oldApp.version = v
      · simp only [appStep, hres, if_pos hskip] at h
        obtain ⟨rfl, rfl⟩ : some oldApp = r ∧ 0 = d := by simpa using h
        exact Or.inl ⟨rfl, rfl⟩
      · cases hdl : downloadAndHash env u with
        | err m =>
          simp only [appStep, hres, if_neg hskip, hdl] at h
          obtain ⟨rfl, rfl⟩ : some oldApp = r ∧ 0 = d := by simpa using h
          exact Or.inl ⟨rfl, rfl⟩
        | ok c dl =>
          by_cases hfs : src.strategy = "direct_static" ∧ oldApp.checksum = c
          · simp only [appStep, hres, if_neg hskip, hdl, if_pos hfs] at h
            obtain ⟨rfl, rfl⟩ : some oldApp = r ∧ 0 = d := by simpa using h
            exact Or.inl ⟨rfl, rfl⟩
          · simp only [appStep, hres, if_neg hskip, hdl, if_neg hfs] at h
            obtain ⟨rfl, rfl⟩ :
                some (buildApp src v u c (if sz = 0 then dl else sz)) = r ∧ 1 = d := by
              simpa using h
            exact Or.inr ⟨rfl, v, u, sz, c, dl, rfl, hdl, rfl⟩
    | none =>
      cases hdl : downloadAndHash env u with
      | err m =>
        simp only [appStep, hres, hdl] at h
        obtain ⟨rfl, rfl⟩ : (none : Option CatalogApp) = r ∧ 0 = d := by simpa using h
        exact Or.inl ⟨rfl, rfl⟩
      | ok c dl =>
        simp only [appStep, hres, hdl] at h
        obtain ⟨rfl, rfl⟩ :
            some (buildApp src v u c (if sz = 0 then dl else sz)) = r ∧ 1 = d := by
          simpa using h
        exact Or.inr ⟨rfl, v, u, sz, c, dl, rfl, hdl, rfl⟩

/-- C4 as amended: an entry recorded by the genuine-update path (the one that
counts a change) carries the metadata of the current source descriptor; an
iteration that counts no change records the prior entry verbatim (or touches
nothing), keeping the possibly stale prior metadata. -/
theorem C4_update_metadata_current (env : Env) (oldApps : AppMap) (s : LoopState)
    (src : SourceApp) (s2 : LoopState)
    (h : processApp env oldApps s src = .cont s2) :
    (s2.changesCount = s.changesCount + 1 →
      (lookupApp s2.newApps src.id).map CatalogApp.id = some src.id ∧
      (lookupApp s2.newApps src.id).map CatalogApp.name = some src.name ∧
      (lookupApp s2.newApps src.id).map CatalogApp.description = some src.description ∧
      (lookupApp s2.newApps src.id).map CatalogApp.iconURL = some src.iconURL ∧
      (lookupApp s2.newApps src.id).map CatalogApp.packageName = some src.packageName ∧
      (lookupApp s2.newApps src.id).map CatalogApp.installType = some src.installType) ∧
    (s2.changesCount = s.changesCount →
      lookupApp s2.newApps src.id = lookupApp oldApps src.id ∨ s2 = s) := by
  rw [processApp_eq_appStep] at h
  cases hstep : appStep env (lookupApp oldApps src.id) src with
  | none => rw [hstep] at h; cases h
  | some p =>
    obtain ⟨e, d⟩ := p
    rw [hstep] at h
    rcases appStep_cases env (lookupApp oldApps src.id) src e d hstep with
      ⟨rfl, rfl⟩ | ⟨rfl, v, u, sz, c, dl, hres, hdl, rfl⟩
    · cases he : lookupApp oldApps src.id with
      | some old =>
        rw [he] at h
        simp only at h
        cases h
        constructor
        · intro hc
          simp at hc
        · intro _
          exact Or.inl (lookupApp_insertApp_self ..)
      | none =>
        rw [he] at h
        simp only at h
        cases h
        exact ⟨fun hc => by simp at hc, fun _ => Or.inr rfl⟩
    · simp only at h
      cases h
      constructor
      · intro _
        rw [lookupApp_insertApp_self]
        simp [buildApp]
      · intro hc
        simp at hc

def c4Env : Env :=
  { github := fun _ => .resp 200 (some ⟨"v1.0", [⟨"x-linux.zip", "http://gh/x", 10⟩]⟩)
    head := fun _ => .transportErr
    dl := fun _ => .transportErr
    regex := fun _ => none
    today := "2026.10.11"
    hashHex := fun _ => "" }

def c4Src : SourceApp :=
  ⟨"x", "NewName", "new desc", "new icon", "new pkg", "deb", "github_release",
    [("repo", "o/r"), ("asset_filter", "linux")]⟩

def c4Old : CatalogApp :=
  ⟨"x", "OldName", "old desc", "old icon", "old pkg", "deb", "1.0", "http://gh/x",
    "cc", 10⟩

theorem C4_counterexample :
    runMain c4Env [c4Src] [("x", c4Old)] = some ⟨[("x", c4Old)], 0, false⟩ ∧
    (lookupApp [("x", c4Old)] "x").map CatalogApp.name = some "OldName" ∧
    c4Src.name = "NewName" :=
  ⟨by decide, by decide, rfl⟩

def c4wEnv : Env :=
  { github := fun _ => .resp 200 (some ⟨"v2.0", [⟨"tool-linux.bin", "http://gh/t2", 9⟩]⟩)
    head := fun _ => .transportErr
    dl := fun _ => .resp 200 [1, 2, 3]
    regex := fun _ => none
    today := "2026.10.11"
    hashHex := fun _ => "hx" }

theorem C4_witness :
    processApp c4wEnv [("a", c1Old)] ⟨[], 0⟩ c1Src =
      .cont ⟨[("a", buildApp c1Src "2.0" "http://gh/t2" "hx" 9)], 1⟩ ∧
    (lookupApp [("a", buildApp c1Src "2.0" "http://gh/t2" "hx" 9)] c1Src.id).map
      CatalogApp.name = some c1Src.name ∧
    (lookupApp [("a", buildApp c1Src "2.0" "http://gh/t2" "hx" 9)] c1Src.id).map
      CatalogApp.installType = some c1Src.installType :=
  have H := C4_update_metadata_current c4wEnv [("a", c1Old)] ⟨[], 0⟩ c1Src
    ⟨[("a", buildApp c1Src "2.0" "http://gh/t2" "hx" 9)], 1⟩ (by decide)
  ⟨by decide, (H.1 rfl).2.1, (H.1 rfl).2.2.2.2.2⟩

/-- A completed run is the fold of the per-application steps started from the
empty map and counter zero, and saves exactly when the final counter is
positive or the prior catalog was empty. -/
theorem runMain_elim (env : Env) (sources : List SourceApp) (oldApps : AppMap)
    (out : RunOutcome) (h : runMain env sources oldApps = some out) :
    ∃ m1 c1, foldSteps env oldApps sources [] 0 = some (m1, c1) ∧
      out = ⟨m1, c1, decide (0 < c1) || decide (oldApps.length = 0)⟩ := by
  have hfold := runLoop_eq_foldSteps env oldApps sources ⟨[], 0⟩
  unfold runMain at h
  rw [hfold] at h
  cases hf : foldSteps env oldApps sources [] 0 with
  | none =>
    rw [hf] at h
    simp at h
  | some p =>
    obtain ⟨m1, c1⟩ := p
    rw [hf] at h
    refine ⟨m1, c1, rfl, ?_⟩
    cases h
    rfl

/-- C5 as amended: an application id absent from the current source list is
absent from the freshly built catalog of a completed run, so whenever the run
performs a write the persisted catalog drops the stale entry; the stale entry
survives on disk only on runs that perform no write. -/
theorem C5_stale_entry_dropped_on_write (env : Env) (sources : List SourceApp)
    (oldApps : AppMap) (out : RunOutcome) (k : String)
    (hid : ∀ src ∈ sources, src.id ≠ k)
    (h : runMain env sources oldApps = some out) :
    lookupApp out.newApps k = none ∧
    (out.saved = true → lookupApp (persistedApps oldApps out) k = none) ∧
    (out.saved = false → lookupApp (persistedApps oldApps out) k = lookupApp oldApps k) := by
  obtain ⟨m1, c1, hf, rfl⟩ := runMain_elim env sources oldApps out h
  have hnone : lookupApp m1 k = none :=
    foldSteps_frame env oldApps sources [] 0 m1 c1 hf k hid
  refine ⟨hnone, ?_, ?_⟩
  · intro hsv
    unfold persistedApps
    rw [hsv]
    simpa using hnone
  · intro hsv
    unfold persistedApps
    rw [hsv]
    simp

def c5Env : Env :=
  { github := fun _ => .resp 200 (some ⟨"v2.0", [⟨"y-linux.bin", "http://gh/y", 4⟩]⟩)
    head := fun _ => .transportErr
    dl := fun _ => .resp 200 [9]
    regex := fun _ => none
    today := "2026.10.11"
    hashHex := fun _ => "hh" }

def c5Src : SourceApp :=
  ⟨"y", "Y", "d", "i", "p", "deb", "github_release",
    [("repo", "o/y"), ("asset_filter", "linux")]⟩

def c5Gone : CatalogApp :=
  ⟨"gone", "Gone", "d", "i", "p", "deb", "9.9", "http://old/gone", "gg", 3⟩

theorem C5_counterexample :
    (runMain c5Env [c5Src] [("gone", c5Gone)]).map RunOutcome.saved = some true ∧
    (runMain c5Env [c5Src] [("gone", c5Gone)]).map
      (fun o => lookupApp (persistedApps [("gone", c5Gone)] o) "gone") = some none :=
  ⟨by decide, by decide⟩

def c5Out : RunOutcome :=
  ⟨[("y", buildApp c5Src "2.0" "http://gh/y" "hh" 4)], 1, true⟩

theorem C5_witness :
    runMain c5Env [c5Src] [("gone", c5Gone)] = some c5Out ∧
    lookupApp c5Out.newApps "gone" = none ∧
    lookupApp (persistedApps [("gone", c5Gone)] c5Out) "gone" = none :=
  have H := C5_stale_entry_dropped_on_write c5Env [c5Src] [("gone", c5Gone)] c5Out
    "gone" (by decide) (by decide)
  ⟨by decide, H.1, H.2.1 rfl⟩

/-- C6: a completed run saves the catalog exactly when the change count is
positive or the prior catalog had no entries, and the counter is incremented
only by the genuine-update path — a step that counts a change records the
freshly assembled entry, while every skip and carry-forward step leaves the
counter untouched. -/
theorem C6_save_iff_changed_or_bootstrap (env : Env) (sources : List SourceApp)
    (oldApps : AppMap) (out : RunOutcome)
    (h : runMain env sources oldApps = some out) :
    (out.saved = true ↔ (0 < out.changesCount ∨ oldApps.length = 0)) ∧
    ∀ s src s2, processApp env oldApps s src = .cont s2 →
      (s2.changesCount = s.changesCount ∨
        (s2.changesCount = s.changesCount + 1 ∧
          ∃ v u sz c dl, checkStrategy env src = .ok v u sz ∧
            downloadAndHash env u = .ok c dl ∧
            lookupApp s2.newApps src.id =
              some (buildApp src v u c (if sz = 0 then dl else sz)))) := by
  obtain ⟨m1, c1, hf, rfl⟩ := runMain_elim env sources oldApps out h
  constructor
  · simp [Bool.or_eq_true, decide_eq_true_iff]
  · intro s src s2 hstep
    rw [processApp_eq_appStep] at hstep
    cases happ : appStep env (lookupApp oldApps src.id) src with
    | none => rw [happ] at hstep; cases hstep
    | some p =>
      obtain ⟨e, d⟩ := p
      rw [happ] at hstep
      rcases appStep_cases env (lookupApp oldApps src.id) src e d happ with
        ⟨rfl, rfl⟩ | ⟨rfl, v, u, sz, c, dl, hres, hdl, rfl⟩
      · cases he : lookupApp oldApps src.id with
        | some old =>
          rw [he] at hstep
          simp only at hstep
          cases hstep
          exact Or.inl rfl
        | none =>
          rw [he] at hstep
          simp only at hstep
          cases hstep
          exact Or.inl rfl
      · simp only at hstep
        cases hstep
        exact Or.inr ⟨rfl, v, u, sz, c, dl, hres, hdl, lookupApp_insertApp_self ..⟩

theorem C6_witness :
    runMain c5Env [c5Src] [("gone", c5Gone)] = some c5Out ∧
    (c5Out.saved = true ↔
      (0 < c5Out.changesCount ∨ ([("gone", c5Gone)] : AppMap).length = 0)) :=
  have H := C6_save_iff_changed_or_bootstrap c5Env [c5Src] [("gone", c5Gone)] c5Out
    (by decide)
  ⟨by decide, H.1⟩

/-- C7 as amended: over a decoded 200 release response, github resolution
selects the first asset, in upstream order, whose lowercased name contains
the configured filter used verbatim — the asset name is compared after
lowercasing but the filter is not altered, so a filter containing uppercase
letters can match nothing; when no asset passes this test the resolution is a
StrategyError and the loop carries the prior entry forward verbatim. -/
theorem C7_asset_selection (env : Env) (repo filter : String) (rel : GithubRelease)
    (hresp : env.github (githubURL repo) = .resp 200 (some rel)) :
    checkGithub env repo filter =
      (match rel.assets.find? (fun a => strContains (strToLower a.name) filter) with
       | some a => .ok (trimV rel.tagName) a.browserDownloadURL a.size
       | none => .err ("asset nao encontrado na release: " ++ filter)) ∧
    (rel.assets.find? (fun a => strContains (strToLower a.name) filter) = none →
      ∀ (oldApps : AppMap) (s : LoopState) (src : SourceApp) (oldApp : CatalogApp),
        src.strategy = "github_release" →
        getCfg src.config "repo" = repo →
        getCfg src.config "asset_filter" = filter →
        lookupApp oldApps src.id = some oldApp →
        processApp env oldApps s src =
          .cont ⟨insertApp s.newApps src.id oldApp, s.changesCount⟩) := by
  have hgh : checkGithub env repo filter =
      (match rel.assets.find? (fun a => strContains (strToLower a.name) filter) with
       | some a => .ok (trimV rel.tagName) a.browserDownloadURL a.size
       | none => .err ("asset nao encontrado na release: " ++ filter)) := by
    unfold checkGithub
    rw [hresp]
    simp
  refine ⟨hgh, ?_⟩
  intro hfind oldApps s src oldApp hstrat hrepo hfilter hold
  have herr : checkStrategy env src =
      .err ("asset nao encontrado na release: " ++ filter) := by
    rw [checkStrategy_github env src hstrat, hrepo, hfilter, hgh, hfind]
  simp [processApp, herr, hold]

def c7Env : Env :=
  { github := fun _ => .resp 200 (some ⟨"v2.0", [⟨"Linux-x86.bin", "http://gh/l", 7⟩]⟩)
    head := fun _ => .transportErr
    dl := fun _ => .transportErr
    regex := fun _ => none
    today := "2026.10.11"
    hashHex := fun _ => "" }

theorem C7_counterexample :
    strContains (strToLower "Linux-x86.bin") (strToLower "Linux") = true ∧
    checkGithub c7Env "o/r" "Linux" =
      .err ("asset nao encontrado na release: " ++ "Linux") :=
  ⟨by decide, by decide⟩

def c7wEnv : Env :=
  { github := fun _ => .resp 200 (some ⟨"v1.0", [⟨"Tool-LINUX.bin", "http://gh/t", 5⟩]⟩)
    head := fun _ => .transportErr
    dl := fun _ => .transportErr
    regex := fun _ => none
    today := "2026.10.11"
    hashHex := fun _ => "" }

theorem C7_witness :
    c7wEnv.github (githubURL "o/r") =
      .resp 200 (some ⟨"v1.0", [⟨"Tool-LINUX.bin", "http://gh/t", 5⟩]⟩) ∧
    checkGithub c7wEnv "o/r" "linux" = .ok "1.0" "http://gh/t" 5 :=
  have H := C7_asset_selection c7wEnv "o/r" "linux"
    ⟨"v1.0", [⟨"Tool-LINUX.bin", "http://gh/t", 5⟩]⟩ rfl
  ⟨rfl, H.1.trans (by decide)⟩

def c8Env : Env :=
  { github := fun _ => .transportErr
    head := fun _ => .resp 200 "http://m/app-1.2.bin" (-1)
    dl := fun _ => .resp 200 [1, 2, 3, 4, 5]
    regex := fun p => if p = "re" then some (fun _ => ["app-1.2.bin", "1.2"]) else none
    today := "2026.10.11"
    hashHex := fun _ => "h5" }

def c8Src : SourceApp :=
  ⟨"app8", "A8", "d", "i", "p", "deb", "direct_url_head",
    [("url", "http://start/a8"), ("regex", "re")]⟩

/-- C8, evaluated at the failing input: a HEAD response whose length header
is absent gives resp.ContentLength -1, the strategy declares size -1, and
because the fallback of main.go line 129 tests equality with 0 only, the
persisted entry keeps size -1 even though 5 bytes were streamed through the
digest during the download. -/
theorem C8_missing_length_header_not_backfilled :
    checkStrategy c8Env c8Src = .ok "1.2" "http://m/app-1.2.bin" (-1) ∧
    downloadAndHash c8Env "http://m/app-1.2.bin" = .ok "h5" 5 ∧
    (runMain c8Env [c8Src] []).map
      (fun o => (lookupApp o.newApps "app8").map CatalogApp.size) =
      some (some (-1)) :=
  ⟨by decide, by decide, by decide⟩

/-- C10 as amended: an invalid regex config value makes a direct_url_head
resolution panic (regexp.MustCompile) and abort the whole run — no entry is
recorded, the remaining applications are not processed and nothing is saved —
provided the HEAD metadata request first succeeds with status 200; when the
request itself fails the per-application error path runs instead and no
panic occurs. -/
theorem C10_invalid_regex_panics_after_200 (env : Env) (oldApps : AppMap)
    (src : SourceApp) (fin : String) (len : Int)
    (hstrat : src.strategy = "direct_url_head")
    (hre : env.regex (getCfg src.config "regex") = none)
    (hhead : env.head (getCfg src.config "url") = .resp 200 fin len) :
    checkStrategy env src = .panic ∧
    (∀ s, processApp env oldApps s src = .panic) ∧
    (∀ rest s, runLoop env oldApps (src :: rest) s = none) ∧
    (∀ rest, runMain env (src :: rest) oldApps = none) := by
  have hpanic : checkStrategy env src = .panic := by
    rw [checkStrategy_head env src hstrat]
    unfold checkDirectHead
    rw [hhead, hre]
    simp
  have hproc : ∀ s, processApp env oldApps s src = .panic := by
    intro s
    simp [processApp, hpanic]
  have hloop : ∀ rest s, runLoop env oldApps (src :: rest) s = none := by
    intro rest s
    simp [runLoop, hproc s]
  refine ⟨hpanic, hproc, hloop, ?_⟩
  intro rest
  unfold runMain
  rw [hloop rest ⟨[], 0⟩]

def c10Env : Env :=
  { github := fun _ => .transportErr
    head := fun _ => .resp 200 "http://m/final" 10
    dl := fun _ => .transportErr
    regex := fun _ => none
    today := "2026.10.11"
    hashHex := fun _ => "" }

def c10Src : SourceApp :=
  ⟨"d", "D", "d", "i", "p", "deb", "direct_url_head",
    [("url", "http://start/d"), ("regex", "(")]⟩

def c10Old : CatalogApp :=
  ⟨"d", "D", "d", "i", "p", "deb", "3.0", "http://m/final", "dd", 10⟩

def c10bEnv : Env :=
  { github := fun _ => .transportErr
    head := fun _ => .transportErr
    dl := fun _ => .transportErr
    regex := fun _ => none
    today := "2026.10.11"
    hashHex := fun _ => "" }

theorem C10_counterexample :
    c10bEnv.regex (getCfg c10Src.config "regex") = none ∧
    checkStrategy c10bEnv c10Src = .err "transport" ∧
    runMain c10bEnv [c10Src] [("d", c10Old)] = some ⟨[("d", c10Old)], 0, false⟩ :=
  ⟨rfl, by decide, by decide⟩

theorem C10_witness :
    c10Src.strategy = "direct_url_head" ∧
    c10Env.regex (getCfg c10Src.config "regex") = none ∧
    c10Env.head (getCfg c10Src.config "url") = .resp 200 "http://m/final" 10 ∧
    checkStrategy c10Env c10Src = .panic ∧
    processApp c10Env [("d", c10Old)] ⟨[], 0⟩ c10Src = .panic ∧
    runLoop c10Env [("d", c10Old)] [c10Src, c1Src] ⟨[], 0⟩ = none ∧
    runMain c10Env [c10Src, c1Src] [("d", c10Old)] = none :=
  have H := C10_invalid_regex_panics_after_200 c10Env [("d", c10Old)] c10Src
    "http://m/final" 10 rfl rfl rfl
  ⟨rfl, rfl, rfl, H.1, H.2.1 ⟨[], 0⟩, H.2.2.1 [c1Src] ⟨[], 0⟩, H.2.2.2 [c1Src]⟩

/-- C9 as amended: with pairwise distinct application ids, a second completed
run over the catalog persisted by a completed first run, under the same
environment, rebuilds exactly the catalog of the first run with a change
count of zero; the second run writes only in the degenerate case where the
first run saved an empty catalog, in which case the empty-prior bootstrap
condition triggers the write again. -/
theorem C9_second_run_idempotent (env : Env) (sources : List SourceApp)
    (oldApps : AppMap) (out1 out2 : RunOutcome)
    (hnd : (sources.map SourceApp.id).Nodup)
    (h1 : runMain env sources oldApps = some out1)
    (h2 : runMain env sources (persistedApps oldApps out1) = some out2) :
    out2.newApps = out1.newApps ∧
    out2.changesCount = 0 ∧
    (out2.saved = true ↔ (out1.saved = true ∧ out1.newApps = [])) := by
  obtain ⟨m1, c1, hf1, rfl⟩ := runMain_elim env sources oldApps out1 h1
  by_cases hs : (decide (0 < c1) || decide (oldApps.length = 0)) = true
  · have hP : persistedApps oldApps
        ⟨m1, c1, decide (0 < c1) || decide (oldApps.length = 0)⟩ = m1 := by
      show (if (decide (0 < c1) || decide (oldApps.length = 0)) = true
        then m1 else oldApps) = m1
      rw [hs]
      simp
    rw [hP] at h2
    obtain ⟨m2, c2, hf2, rfl⟩ := runMain_elim env sources m1 out2 h2
    have H4 : ∀ src ∈ sources, ∃ r d,
        appStep env (lookupApp oldApps src.id) src = some (r, d) ∧
        appStep env (lookupApp m1 src.id) src = some (r, 0) := by
      intro src hmem
      have hml := foldSteps_lookup env oldApps sources hnd [] 0 m1 c1 hf1 src hmem
      cases hstep : appStep env (lookupApp oldApps src.id) src with
      | none =>
        rw [hstep] at hml
        have hfalse : False := hml
        exact hfalse.elim
      | some p =>
        obtain ⟨e, d⟩ := p
        rw [hstep] at hml
        cases e with
        | some e0 =>
          have hml2 : lookupApp m1 src.id = some e0 := hml
          refine ⟨some e0, d, rfl, ?_⟩
          rw [hml2]
          exact appStep_idem env (lookupApp oldApps src.id) src (some e0) d hstep
        | none =>
          have hml2 : lookupApp m1 src.id = none := hml
          refine ⟨none, d, rfl, ?_⟩
          rw [hml2]
          exact appStep_idem env (lookupApp oldApps src.id) src none d hstep
    have hcongr := foldSteps_congr env oldApps m1 sources H4 [] 0 0 m1 c1 hf1
    rw [hf2] at hcongr
    obtain ⟨hm, hc⟩ : m2 = m1 ∧ c2 = 0 := by
      have := Option.some.inj hcongr
      exact ⟨congrArg Prod.fst this, congrArg Prod.snd this⟩
    subst hm
    subst hc
    refine ⟨rfl, rfl, ?_⟩
    simp only [RunOutcome.saved, RunOutcome.newApps]
    rw [hs]
    simp [List.length_eq_zero]
  · have hsb : (decide (0 < c1) || decide (oldApps.length = 0)) = false := by
      revert hs
      cases decide (0 < c1) || decide (oldApps.length = 0) <;> simp
    have hcomp : ¬(0 < c1) ∧ ¬(oldApps.length = 0) := by
      constructor
      · intro hlt
        rw [decide_eq_true hlt] at hsb
        simp at hsb
      · intro hlen
        rw [decide_eq_true hlen] at hsb
        simp at hsb
    have hP : persistedApps oldApps
        ⟨m1, c1, decide (0 < c1) || decide (oldApps.length = 0)⟩ = oldApps := by
      show (if (decide (0 < c1) || decide (oldApps.length = 0)) = true
        then m1 else oldApps) = oldApps
      rw [hsb]
      simp
    rw [hP] at h2
    obtain ⟨m2, c2, hf2, rfl⟩ := runMain_elim env sources oldApps out2 h2
    rw [hf1] at hf2
    obtain ⟨hm, hc⟩ : m1 = m2 ∧ c1 = c2 := by
      have := Option.some.inj hf2
      exact ⟨congrArg Prod.fst this, congrArg Prod.snd this⟩
    subst hm
    subst hc
    have hc0 : c1 = 0 := by omega
    refine ⟨rfl, hc0, ?_⟩
    simp only [RunOutcome.saved, RunOutcome.newApps]
    rw [hsb]
    simp

theorem C9_witness :
    ([c1Src].map SourceApp.id).Nodup ∧
    runMain c1Env [c1Src] [("a", c1Old)] = some ⟨[("a", c1Old)], 0, false⟩ ∧
    runMain c1Env [c1Src]
      (persistedApps [("a", c1Old)] ⟨[("a", c1Old)], 0, false⟩) =
      some ⟨[("a", c1Old)], 0, false⟩ ∧
    (⟨[("a", c1Old)], 0, false⟩ : RunOutcome).newApps = [("a", c1Old)] ∧
    (⟨[("a", c1Old)], 0, false⟩ : RunOutcome).changesCount = 0 ∧
    ((⟨[("a", c1Old)], 0, false⟩ : RunOutcome).saved = true ↔
      ((⟨[("a", c1Old)], 0, false⟩ : RunOutcome).saved = true ∧
        (⟨[("a", c1Old)], 0, false⟩ : RunOutcome).newApps = [])) :=
  have H := C9_second_run_idempotent c1Env [c1Src] [("a", c1Old)]
    ⟨[("a", c1Old)], 0, false⟩ ⟨[("a", c1Old)], 0, false⟩
    (by decide) (by decide) (by decide)
  ⟨by decide, by decide, by decide, H.1, H.2.1, H.2.2⟩

theorem C9_counterexample :
    runMain c2Env [c1Src] [] = some ⟨[], 0, true⟩ ∧
    (runMain c2Env [c1Src] (persistedApps [] ⟨[], 0, true⟩)).map RunOutcome.saved =
      some true :=
  ⟨by decide, by decide⟩

end UpdaterRegistry
